import Mathlib

/- Shallow embedding of the clipper repository.

   The embedding covers, translated from the source:
   - src/clipper.py: the dataclasses VidData and ClipInfo, CollageMaker.load
     (the footage index) and CollageMaker.collage (the clip scheduler with its
     two samplers round_robin and time_random, the rejection loop, and the
     final sort), and MLTCollageMaker.write (basename projection of clips).
   - src/mltmaker.py: the metadata defaulting of get_video_metadata, the
     profile-metadata fallback of generate_mlt_file, the chain id scheme
     chain(2i) / chain(2i+1), and the basename-keyed producer resolution for
     playlist entries.

   Modelling conventions:
   - Python floats carrying times are modelled as rationals.
   - The Mersenne-Twister source random.Random(seed) is modelled as a stream
     u : Nat -> Rat of draws in [0, 1); random.uniform(a, b) consumes one draw
     as a + (b - a) * u, random.choice consumes one draw as index
     floor(u * len).  Every real run corresponds to some stream, so theorems
     quantified over bounded streams cover all runs.
   - Exceptions abort the run; an aborted or non-terminating run is `none`.
     The unbounded `while True` rejection loop is given explicit fuel; fuel
     exhaustion is also `none`.
   - `int(x)` on a float is truncation toward zero; `int(length / period)`
     with period = 0 raises ZeroDivisionError, modelled as `none`.
   - The media collaborator (moviepy / ffprobe) is an input: a file is a pair
     of its name and the duration the collaborator reports (`none` when the
     file cannot be opened), and a probe result is `Option ProbeData`. -/

namespace Clipper

/- dataclass VidData(start, filename, duration) -/
structure VidData where
  start : ℚ
  filename : String
  duration : ℚ
deriving DecidableEq

/- dataclass ClipInfo(start, skip, filename, duration) -/
structure ClipInfo where
  start : ℚ
  skip : ℚ
  filename : String
  duration : ℚ
deriving DecidableEq

/- rand.uniform(a, b) = a + (b - a) * random(), random() in [0, 1) -/
def pyUniform (a b u : ℚ) : ℚ := a + (b - a) * u

/- rand.choice picks an index uniformly below n; modelled as floor(u * n) -/
def pyChoiceIdx (u : ℚ) (n : ℕ) : ℕ := (⌊u * (n : ℚ)⌋).toNat

/- Python min() over a list; raises on an empty list, hence Option -/
def pyMin : List ℚ → Option ℚ
  | [] => none
  | x :: xs => some (xs.foldl min x)

/- dataclass(order=True) comparison on VidData: lexicographic on
   (start, filename, duration) -/
def vidLt (a b : VidData) : Prop :=
  a.start < b.start ∨
    (a.start = b.start ∧
      (a.filename < b.filename ∨ (a.filename = b.filename ∧ a.duration < b.duration)))

instance (a b : VidData) : Decidable (vidLt a b) := by
  unfold vidLt; infer_instance

/- Python max() over a list of VidData; raises on an empty list, hence Option.
   max keeps the current element and replaces it only on a strictly greater one. -/
def pyMax : List VidData → Option VidData
  | [] => none
  | v :: vs => some (vs.foldl (fun best x => if vidLt best x then x else best) v)

/- The mutable state of CollageMaker.collage: the round-robin bag, the list of
   accepted starts, the accepted subclips, and the position in the random
   stream. -/
structure SchedState where
  bag : List VidData
  starts : List ℚ
  acc : List ClipInfo
  pos : ℕ

/- def time_random(): start = rand.uniform(0, footage_length - period);
   vid = max(v for v in footage if v.start <= start).  The genexp can be
   empty, in which case Python max() raises ValueError. -/
def timeRandom (footage : List VidData) (footageLength period : ℚ) (u : ℕ → ℚ)
    (pos : ℕ) : Option (ℚ × VidData) :=
  let start := pyUniform 0 (footageLength - period) (u pos)
  match pyMax (footage.filter (fun v => decide (v.start ≤ start))) with
  | none => none
  | some vid => some (start, vid)

/- def round_robin(bag): refill the bag when empty (dead at the call site,
   which only calls round_robin on a non-empty bag), draw a random element,
   remove it, and draw a uniform start inside the chosen entry. -/
def roundRobin (footage : List VidData) (period : ℚ) (u : ℕ → ℚ)
    (bag : List VidData) (pos : ℕ) : List VidData × ℚ × VidData :=
  let bag1 := if bag.isEmpty then bag ++ footage else bag
  let vid := bag1.getD (pyChoiceIdx (u pos) bag1.length) ⟨0, "", 0⟩
  let bag2 := bag1.erase vid
  let start := pyUniform vid.start (vid.start + vid.duration - period) (u (pos + 1))
  (bag2, start, vid)

/- start, vid = round_robin(bag) if bag else time_random() -/
def attempt (footage : List VidData) (footageLength period : ℚ) (u : ℕ → ℚ)
    (st : SchedState) : Option (List VidData × ℕ × ℚ × VidData) :=
  if st.bag.isEmpty then
    (timeRandom footage footageLength period u st.pos).map
      (fun p => (st.bag, st.pos + 1, p.1, p.2))
  else
    let r := roundRobin footage period u st.bag st.pos
    some (r.1, st.pos + 2, r.2.1, r.2.2)

/- the acceptance test of the rejection loop:
   skip + period <= vid.duration, and
   not distances or min(distances) > period * 2
   with distances = [abs(s - start) for s in starts] -/
def accepts (starts : List ℚ) (period start skip : ℚ) (vid : VidData) : Bool :=
  decide (skip + period ≤ vid.duration) &&
    (match pyMin (starts.map (fun s => |s - start|)) with
     | none => true
     | some m => decide (period * 2 < m))

/- one iteration of the `while True` body: draw, then either accept (append to
   starts and subclips) or reject (the bag mutation and consumed draws
   persist). -/
def step (footage : List VidData) (footageLength period : ℚ) (u : ℕ → ℚ)
    (st : SchedState) : Option (SchedState × Bool) :=
  match attempt footage footageLength period u st with
  | none => none
  | some (bag, pos, start, vid) =>
    let skip := start - vid.start
    if accepts st.starts period start skip vid then
      some ({ bag := bag, starts := st.starts ++ [start],
              acc := st.acc ++ [⟨start, skip, vid.filename, period⟩], pos := pos }, true)
    else
      some ({ st with bag := bag, pos := pos }, false)

/- the `while True` rejection loop, with fuel; the source has no retry cap -/
def findClip (footage : List VidData) (footageLength period : ℚ) (u : ℕ → ℚ) :
    ℕ → SchedState → Option SchedState
  | 0, _ => none
  | fuel + 1, st =>
    match step footage footageLength period u st with
    | none => none
    | some (st', true) => some st'
    | some (st', false) => findClip footage footageLength period u fuel st'

/- for i in range(int(self.length / self.period)): ... -/
def schedule (footage : List VidData) (footageLength period : ℚ) (u : ℕ → ℚ)
    (fuel : ℕ) : ℕ → SchedState → Option SchedState
  | 0, st => some st
  | n + 1, st =>
    match findClip footage footageLength period u fuel st with
    | none => none
    | some st' => schedule footage footageLength period u fuel n st'

/- Python int() on a float truncates toward zero -/
def pyTrunc (q : ℚ) : ℤ := if q < 0 then ⌈q⌉ else ⌊q⌋

/- int(self.length / self.period), the number of loop iterations -/
def numClips (total period : ℚ) : ℕ := (pyTrunc (total / period)).toNat

/- the scheduling part of CollageMaker.collage, before the final sort.
   period = 0 raises ZeroDivisionError in int(length / period). -/
def rawClips (footage : List VidData) (footageLength period total : ℚ)
    (u : ℕ → ℚ) (fuel : ℕ) : Option (List ClipInfo) :=
  if period = 0 then none
  else (schedule footage footageLength period u fuel (numClips total period)
          ⟨footage, [], [], 0⟩).map SchedState.acc

/- dataclass(order=True) comparison on ClipInfo: lexicographic on
   (start, skip, filename, duration) -/
def clipLt (a b : ClipInfo) : Prop :=
  a.start < b.start ∨
    (a.start = b.start ∧
      (a.skip < b.skip ∨
        (a.skip = b.skip ∧
          (a.filename < b.filename ∨
            (a.filename = b.filename ∧ a.duration < b.duration)))))

instance (a b : ClipInfo) : Decidable (clipLt a b) := by
  unfold clipLt; infer_instance

/- list.sort uses only `<`; a list is sorted when no later element is `<` an
   earlier one -/
def clipLE (a b : ClipInfo) : Bool := !(decide (clipLt b a))

/- subclips.sort(): stable sort ascending under the dataclass order -/
def sortClips (cs : List ClipInfo) : List ClipInfo := cs.mergeSort clipLE

/- CollageMaker.collage after the loop:
   if not self.shuffle: subclips.sort() -/
def collageClips (footage : List VidData) (footageLength period total : ℚ)
    (shuffle : Bool) (u : ℕ → ℚ) (fuel : ℕ) : Option (List ClipInfo) :=
  (rawClips footage footageLength period total u fuel).map
    (fun cs => if shuffle then cs else sortClips cs)

/- rand = random.Random(self.seed): the stream of draws is a function of the
   seed alone -/
def collageFromSeed (seedStream : String → ℕ → ℚ) (footage : List VidData)
    (footageLength period total : ℚ) (shuffle : Bool) (seed : String)
    (fuel : ℕ) : Option (List ClipInfo) :=
  collageClips footage footageLength period total shuffle (seedStream seed) fuel

/- CollageMaker.load: each input file is (name, duration reported by the
   media collaborator; none when opening raises).  An exception aborts the
   whole load, producing no partial index.  There is no duration check. -/
def loadAux : List (String × Option ℚ) → ℚ → Option (List VidData × ℚ)
  | [], offset => some ([], offset)
  | (_, none) :: _, _ => none
  | (fn, some d) :: rest, offset =>
    match loadAux rest (offset + d) with
    | none => none
    | some (fs, total) => some (⟨offset, fn, d⟩ :: fs, total)

def load (files : List (String × Option ℚ)) : Option (List VidData × ℚ) :=
  loadAux files 0

end Clipper

namespace MLTMaker

/- the fields ffprobe may report for a file (format and stream entries); a
   missing field keeps the hard-coded default of get_video_metadata -/
structure ProbeData where
  duration : Option ℚ
  width : Option ℤ
  height : Option ℤ
  frameRateNum : Option ℤ
  frameRateDen : Option ℤ
  codecName : Option String
  pixFmt : Option String
  sampleRate : Option ℤ
  audioChannels : Option ℤ
  audioCodec : Option String
deriving DecidableEq

/- the fully populated metadata dict built by a successful
   get_video_metadata call -/
structure FullMetadata where
  duration : ℚ
  width : ℤ
  height : ℤ
  frameRateNum : ℤ
  frameRateDen : ℤ
  codecName : String
  pixFmt : String
  sampleRate : ℤ
  audioChannels : ℤ
  audioCodec : String
deriving DecidableEq

/- the `metadata = {...defaults...}` dict of get_video_metadata, overridden
   field by field with whatever ffprobe reported (creation_time, a wall-clock
   value, is omitted; the r_frame_rate string parsing is abstracted into the
   reported numerator/denominator) -/
def mergeProbe (p : ProbeData) : FullMetadata :=
  { duration := p.duration.getD 0
    width := p.width.getD 1920
    height := p.height.getD 1080
    frameRateNum := p.frameRateNum.getD 30000
    frameRateDen := p.frameRateDen.getD 1001
    codecName := p.codecName.getD "h264"
    pixFmt := p.pixFmt.getD "yuv420p"
    sampleRate := p.sampleRate.getD 48000
    audioChannels := p.audioChannels.getD 2
    audioCodec := p.audioCodec.getD "aac" }

/- get_video_metadata: returns None when ffprobe fails (missing file,
   CalledProcessError, JSON decode error), else the defaults-merged dict -/
def get_video_metadata (probe : Option ProbeData) : Option FullMetadata :=
  probe.map mergeProbe

/- a Python metadata dict with a possibly restricted key set: the default HD
   profile dict of generate_mlt_file carries only width, height and the frame
   rate; reading any other key from it raises KeyError, hence those fields
   are Option -/
structure MetadataDict where
  duration : Option ℚ
  width : ℤ
  height : ℤ
  frameRateNum : ℤ
  frameRateDen : ℤ
  codecName : Option String
  pixFmt : Option String
  sampleRate : Option ℤ
  audioChannels : Option ℤ
  audioCodec : Option String
deriving DecidableEq

def FullMetadata.toDict (m : FullMetadata) : MetadataDict :=
  ⟨some m.duration, m.width, m.height, m.frameRateNum, m.frameRateDen,
   some m.codecName, some m.pixFmt, some m.sampleRate, some m.audioChannels,
   some m.audioCodec⟩

/- the `profile_metadata = {...}` fallback dict of generate_mlt_file, used
   when no file probes successfully -/
def defaultHDProfile : MetadataDict :=
  ⟨none, 1920, 1080, 30000, 1001, none, none, none, none, none⟩

/- the profile-selection loop of generate_mlt_file: the metadata of the first
   file whose probe succeeds, else the default HD dict -/
def profileMetadata (probes : List (Option ProbeData)) : MetadataDict :=
  match probes.findSome? get_video_metadata with
  | some m => m.toDict
  | none => defaultHDProfile

/- the per-file metadata used by generate_mlt_file: the file's own probe
   result when it succeeds, else profile_metadata.copy() (with a printed
   warning) -/
def resolvedMetadata (probes : List (Option ProbeData)) (i : ℕ) : MetadataDict :=
  match get_video_metadata (probes.getD i none) with
  | some m => m.toDict
  | none => profileMetadata probes

/- the per-file chain-construction loop of generate_mlt_file reads
   metadata["duration"] for every input file to compute the chain length;
   reading the key from a dict that lacks it raises KeyError and aborts
   generation.  Modelled on the duration reads, the crash-relevant part of
   the loop. -/
def readDurations : List MetadataDict → Option (List ℚ)
  | [] => some []
  | m :: rest =>
    match m.duration, readDurations rest with
    | some d, some ds => some (d :: ds)
    | _, _ => none

def chainDurations (probes : List (Option ProbeData)) : Option (List ℚ) :=
  readDurations ((List.range probes.length).map (resolvedMetadata probes))

/- os.path.basename: the suffix after the last '/' -/
def afterLastSlash : List Char → List Char
  | [] => []
  | c :: cs =>
    if c = '/' then afterLastSlash cs
    else if cs.contains '/' then afterLastSlash cs
    else c :: afterLastSlash cs

def basename (p : String) : String := String.mk (afterLastSlash p.data)

/- the chain ids of generate_mlt_file: f"chain{i*2}" for the main_bin chain
   of file i, f"chain{i*2+1}" for its playlist chain -/
def chainBinId (i : ℕ) : String := "chain" ++ toString (2 * i)

def chainPlaylistId (i : ℕ) : String := "chain" ++ toString (2 * i + 1)

/- clip_chains: one (id, filename-after-basename) pair per input file, in
   order -/
def clipChains (files : List String) : List (String × String) :=
  files.enum.map (fun p => (chainPlaylistId p.1, basename p.2))

/- the per-clip producer lookup of generate_mlt_file: linear scan of
   clip_chains for the first chain whose filename equals the clip's name;
   a clip whose name matches no chain is skipped with a warning (the
   filename_to_path membership test rejects exactly the same clips) -/
def resolveChainId (files : List String) (clipName : String) : Option String :=
  ((clipChains files).find? (fun c => c.2 == clipName)).map (fun c => c.1)

/- MLTCollageMaker.write: each scheduled clip is handed to generate_mlt_file
   as (os.path.basename(clip.filename), clip.skip, clip.duration); the full
   path, and with it the identity of the owning file, is dropped here -/
def mltClips (subclips : List Clipper.ClipInfo) : List (String × ℚ × ℚ) :=
  subclips.map (fun c => (basename c.filename, c.skip, c.duration))

end MLTMaker

namespace Clipper

/- helper facts about the embedded Python primitives -/

lemma foldl_min_le_init (xs : List ℚ) (a : ℚ) : xs.foldl min a ≤ a := by
  induction xs generalizing a with
  | nil => simp
  | cons y ys ih => exact le_trans (ih (min a y)) (min_le_left a y)

lemma foldl_min_le_mem (xs : List ℚ) :
    ∀ (a x : ℚ), x ∈ xs → xs.foldl min a ≤ x := by
  induction xs with
  | nil => intro a x hx; cases hx
  | cons y ys ih =>
    intro a x hx
    rcases List.mem_cons.mp hx with rfl | hx'
    · exact le_trans (foldl_min_le_init ys (min a x)) (min_le_right a x)
    · exact ih (min a y) x hx'

lemma pyMin_le (l : List ℚ) (m : ℚ) (h : pyMin l = some m) :
    ∀ x ∈ l, m ≤ x := by
  cases l with
  | nil => simp [pyMin] at h
  | cons x xs =>
    simp only [pyMin, Option.some.injEq] at h
    subst h
    intro y hy
    rcases List.mem_cons.mp hy with rfl | hy'
    · exact foldl_min_le_init xs y
    · exact foldl_min_le_mem xs x y hy'


lemma foldl_max_mem (vs : List VidData) (v : VidData) :
    vs.foldl (fun best x => if vidLt best x then x else best) v ∈ v :: vs := by
  induction vs generalizing v with
  | nil => simp
  | cons w ws ih =>
    have h := ih (if vidLt v w then w else v)
    rcases List.mem_cons.mp h with h' | h'
    · rw [List.foldl_cons, h']
      by_cases hvw : vidLt v w <;> simp [hvw]
    · rw [List.foldl_cons]
      exact List.mem_cons_of_mem _ (List.mem_cons_of_mem _ h')

lemma pyMax_mem (l : List VidData) (v : VidData) (h : pyMax l = some v) :
    v ∈ l := by
  cases l with
  | nil => simp [pyMax] at h
  | cons x xs =>
    simp only [pyMax, Option.some.injEq] at h
    subst h
    exact foldl_max_mem xs x

lemma pyChoiceIdx_lt (u : ℚ) (n : ℕ) (h0 : 0 ≤ u) (h1 : u < 1) (hn : 0 < n) :
    pyChoiceIdx u n < n := by
  unfold pyChoiceIdx
  have hlt : ⌊u * (n : ℚ)⌋ < (n : ℤ) := by
    rw [Int.floor_lt]
    push_cast
    calc u * (n : ℚ) < 1 * (n : ℚ) := by
          apply mul_lt_mul_of_pos_right h1
          exact_mod_cast hn
      _ = (n : ℚ) := one_mul _
  omega

lemma accepts_true {starts : List ℚ} {p start skip : ℚ} {vid : VidData}
    (h : accepts starts p start skip vid = true) :
    skip + p ≤ vid.duration ∧ ∀ s ∈ starts, p * 2 < |s - start| := by
  unfold accepts at h
  rw [Bool.and_eq_true] at h
  refine ⟨of_decide_eq_true h.1, ?_⟩
  intro s hs
  have h2 := h.2
  cases hm : pyMin (starts.map (fun s => |s - start|)) with
  | none =>
    cases starts with
    | nil => cases hs
    | cons a l => simp [pyMin] at hm
  | some m =>
    rw [hm] at h2
    have hml : p * 2 < m := of_decide_eq_true h2
    have : m ≤ |s - start| :=
      pyMin_le _ _ hm _ (List.mem_map_of_mem _ hs)
    linarith

/- characterization of one attempt and one loop iteration -/

lemma attempt_cases {footage : List VidData} {fl p : ℚ} {u : ℕ → ℚ}
    {st : SchedState} {bag : List VidData} {pos : ℕ} {start : ℚ} {vid : VidData}
    (h : attempt footage fl p u st = some (bag, pos, start, vid)) :
    (st.bag.isEmpty = true ∧ bag = st.bag ∧ pos = st.pos + 1 ∧
      start = pyUniform 0 (fl - p) (u st.pos) ∧
      pyMax (footage.filter (fun v => decide (v.start ≤ start))) = some vid) ∨
    (st.bag.isEmpty = false ∧ pos = st.pos + 2 ∧
      vid = st.bag.getD (pyChoiceIdx (u st.pos) st.bag.length) ⟨0, "", 0⟩ ∧
      bag = st.bag.erase vid ∧
      start = pyUniform vid.start (vid.start + vid.duration - p) (u (st.pos + 1))) := by
  unfold attempt at h
  by_cases he : st.bag.isEmpty
  · left
    rw [if_pos he] at h
    simp only [timeRandom] at h
    cases hm : pyMax (footage.filter
        (fun v => decide (v.start ≤ pyUniform 0 (fl - p) (u st.pos)))) with
    | none => rw [hm] at h; simp at h
    | some w =>
      rw [hm] at h
      simp only [Option.map_some', Option.some.injEq, Prod.mk.injEq] at h
      obtain ⟨h1, h2, h3, h4⟩ := h
      refine ⟨he, h1.symm, h2.symm, h3.symm, ?_⟩
      rw [← h3, hm, h4]
  · right
    simp only [Bool.not_eq_true] at he
    rw [he] at h
    simp only [Bool.false_eq_true, if_false, roundRobin, he,
      Option.some.injEq, Prod.mk.injEq] at h
    obtain ⟨h1, h2, h3, h4⟩ := h
    exact ⟨he, h2.symm, h4.symm, by rw [← h4, ← h1], by rw [← h4, ← h3]⟩

lemma step_cases {footage : List VidData} {fl p : ℚ} {u : ℕ → ℚ}
    {st st' : SchedState} {b : Bool}
    (h : step footage fl p u st = some (st', b)) :
    ∃ bag pos start vid,
      attempt footage fl p u st = some (bag, pos, start, vid) ∧
      ((b = true ∧
          accepts st.starts p start (start - vid.start) vid = true ∧
          st' = ⟨bag, st.starts ++ [start],
                 st.acc ++ [⟨start, start - vid.start, vid.filename, p⟩], pos⟩) ∨
       (b = false ∧
          accepts st.starts p start (start - vid.start) vid = false ∧
          st' = ⟨bag, st.starts, st.acc, pos⟩)) := by
  unfold step at h
  cases ha : attempt footage fl p u st with
  | none => rw [ha] at h; cases h
  | some r =>
    obtain ⟨bag, pos, start, vid⟩ := r
    rw [ha] at h
    simp only at h
    refine ⟨bag, pos, start, vid, rfl, ?_⟩
    by_cases hacc : accepts st.starts p start (start - vid.start) vid
    · rw [if_pos hacc] at h
      obtain ⟨h1, h2⟩ := Prod.mk.injEq .. ▸ Option.some.inj h
      exact Or.inl ⟨h2.symm, hacc, h1.symm⟩
    · rw [if_neg hacc] at h
      obtain ⟨h1, h2⟩ := Prod.mk.injEq .. ▸ Option.some.inj h
      refine Or.inr ⟨h2.symm, by simpa using hacc, ?_⟩
      rw [← h1]

/- generic preservation of an invariant through the loops -/

lemma findClip_pres {footage : List VidData} {fl p : ℚ} {u : ℕ → ℚ}
    (P : SchedState → Prop)
    (hstep : ∀ s s' b, step footage fl p u s = some (s', b) → P s → P s') :
    ∀ fuel st st', findClip footage fl p u fuel st = some st' → P st → P st' := by
  intro fuel
  induction fuel with
  | zero => intro st st' h; simp [findClip] at h
  | succ n ih =>
    intro st st' h hP
    rw [findClip] at h
    cases hs : step footage fl p u st with
    | none => rw [hs] at h; cases h
    | some r =>
      obtain ⟨s1, b⟩ := r
      rw [hs] at h
      cases b with
      | true =>
        simp only at h
        cases h
        exact hstep _ _ _ hs hP
      | false =>
        simp only at h
        exact ih s1 st' h (hstep _ _ _ hs hP)

lemma schedule_pres {footage : List VidData} {fl p : ℚ} {u : ℕ → ℚ} {fuel : ℕ}
    (P : SchedState → Prop)
    (hstep : ∀ s s' b, step footage fl p u s = some (s', b) → P s → P s') :
    ∀ n st st', schedule footage fl p u fuel n st = some st' → P st → P st' := by
  intro n
  induction n with
  | zero =>
    intro st st' h hP
    rw [schedule] at h
    cases h
    exact hP
  | succ m ih =>
    intro st st' h hP
    rw [schedule] at h
    cases hf : findClip footage fl p u fuel st with
    | none => rw [hf] at h; cases h
    | some s1 =>
      rw [hf] at h
      exact ih s1 st' h (findClip_pres P hstep fuel st s1 hf hP)

/- the accepted-clip count -/

lemma findClip_len {footage : List VidData} {fl p : ℚ} {u : ℕ → ℚ} :
    ∀ fuel st st', findClip footage fl p u fuel st = some st' →
      st'.acc.length = st.acc.length + 1 := by
  intro fuel
  induction fuel with
  | zero => intro st st' h; simp [findClip] at h
  | succ n ih =>
    intro st st' h
    rw [findClip] at h
    cases hs : step footage fl p u st with
    | none => rw [hs] at h; cases h
    | some r =>
      obtain ⟨s1, b⟩ := r
      rw [hs] at h
      obtain ⟨bag, pos, start, vid, ha, hcase⟩ := step_cases hs
      cases b with
      | true =>
        simp only at h
        cases h
        rcases hcase with ⟨_, _, rfl⟩ | ⟨hb, _, _⟩
        · simp
        · cases hb
      | false =>
        simp only at h
        have := ih s1 st' h
        rcases hcase with ⟨hb, _, _⟩ | ⟨_, _, rfl⟩
        · cases hb
        · simpa using this

lemma schedule_len {footage : List VidData} {fl p : ℚ} {u : ℕ → ℚ} {fuel : ℕ} :
    ∀ n st st', schedule footage fl p u fuel n st = some st' →
      st'.acc.length = st.acc.length + n := by
  intro n
  induction n with
  | zero =>
    intro st st' h
    rw [schedule] at h
    cases h
    simp
  | succ m ih =>
    intro st st' h
    rw [schedule] at h
    cases hf : findClip footage fl p u fuel st with
    | none => rw [hf] at h; cases h
    | some s1 =>
      rw [hf] at h
      have h1 := findClip_len fuel st s1 hf
      have h2 := ih s1 st' h
      omega

lemma rawClips_some {footage : List VidData} {fl p total : ℚ} {u : ℕ → ℚ}
    {fuel : ℕ} {cs : List ClipInfo}
    (h : rawClips footage fl p total u fuel = some cs) :
    p ≠ 0 ∧ ∃ st', schedule footage fl p u fuel (numClips total p)
      ⟨footage, [], [], 0⟩ = some st' ∧ st'.acc = cs := by
  unfold rawClips at h
  by_cases hp : p = 0
  · rw [if_pos hp] at h; cases h
  · rw [if_neg hp] at h
    refine ⟨hp, ?_⟩
    cases hs : schedule footage fl p u fuel (numClips total p)
        ⟨footage, [], [], 0⟩ with
    | none => rw [hs] at h; cases h
    | some st' =>
      rw [hs] at h
      exact ⟨st', rfl, Option.some.inj h⟩

end Clipper

namespace Clipper

/- order facts for the dataclass comparison on ClipInfo -/

lemma clipLt_asymm (a b : ClipInfo) (h1 : clipLt a b) (h2 : clipLt b a) :
    False := by
  rcases h1 with h1 | ⟨e1, h1⟩ <;> rcases h2 with h2 | ⟨e2, h2⟩
  · exact lt_asymm h1 h2
  · exact absurd e2 (ne_of_gt h1)
  · exact absurd e1 (ne_of_gt h2)
  · rcases h1 with h1 | ⟨f1, h1⟩ <;> rcases h2 with h2 | ⟨f2, h2⟩
    · exact lt_asymm h1 h2
    · exact absurd f2 (ne_of_gt h1)
    · exact absurd f1 (ne_of_gt h2)
    · rcases h1 with h1 | ⟨g1, h1⟩ <;> rcases h2 with h2 | ⟨g2, h2⟩
      · exact lt_asymm h1 h2
      · exact absurd g2 (ne_of_gt h1)
      · exact absurd g1 (ne_of_gt h2)
      · exact lt_asymm h1 h2

lemma clipLt_trans (a b c : ClipInfo) (h1 : clipLt a b) (h2 : clipLt b c) :
    clipLt a c := by
  rcases h1 with h1 | ⟨e1, h1⟩ <;> rcases h2 with h2 | ⟨e2, h2⟩
  · exact Or.inl (lt_trans h1 h2)
  · exact Or.inl (by rw [← e2]; exact h1)
  · exact Or.inl (by rw [e1]; exact h2)
  · refine Or.inr ⟨e1.trans e2, ?_⟩
    rcases h1 with h1 | ⟨f1, h1⟩ <;> rcases h2 with h2 | ⟨f2, h2⟩
    · exact Or.inl (lt_trans h1 h2)
    · exact Or.inl (by rw [← f2]; exact h1)
    · exact Or.inl (by rw [f1]; exact h2)
    · refine Or.inr ⟨f1.trans f2, ?_⟩
      rcases h1 with h1 | ⟨g1, h1⟩ <;> rcases h2 with h2 | ⟨g2, h2⟩
      · exact Or.inl (lt_trans h1 h2)
      · exact Or.inl (by rw [← g2]; exact h1)
      · exact Or.inl (by rw [g1]; exact h2)
      · exact Or.inr ⟨g1.trans g2, lt_trans h1 h2⟩

lemma clipLt_connex (a b : ClipInfo) (hab : ¬clipLt a b) (hba : ¬clipLt b a) :
    a = b := by
  rcases lt_trichotomy a.start b.start with h | e1 | h
  · exact absurd (Or.inl h) hab
  · rcases lt_trichotomy a.skip b.skip with h | e2 | h
    · exact absurd (Or.inr ⟨e1, Or.inl h⟩) hab
    · rcases lt_trichotomy a.filename b.filename with h | e3 | h
      · exact absurd (Or.inr ⟨e1, Or.inr ⟨e2, Or.inl h⟩⟩) hab
      · rcases lt_trichotomy a.duration b.duration with h | e4 | h
        · exact absurd (Or.inr ⟨e1, Or.inr ⟨e2, Or.inr ⟨e3, h⟩⟩⟩) hab
        · cases a; cases b; simp_all
        · exact absurd (Or.inr ⟨e1.symm, Or.inr ⟨e2.symm, Or.inr ⟨e3.symm, h⟩⟩⟩) hba
      · exact absurd (Or.inr ⟨e1.symm, Or.inr ⟨e2.symm, Or.inl h⟩⟩) hba
    · exact absurd (Or.inr ⟨e1.symm, Or.inl h⟩) hba
  · exact absurd (Or.inl h) hba

lemma clipLE_true_iff (a b : ClipInfo) : clipLE a b = true ↔ ¬clipLt b a := by
  simp [clipLE]

lemma clipLE_false_iff (a b : ClipInfo) : clipLE a b = false ↔ clipLt b a := by
  simp [clipLE]

lemma clipLE_total (a b : ClipInfo) : (clipLE a b || clipLE b a) = true := by
  rcases Bool.eq_false_or_eq_true (clipLE a b) with h | h
  · simp [h]
  · have h1 := (clipLE_false_iff a b).mp h
    have h2 : clipLE b a = true :=
      (clipLE_true_iff b a).mpr (fun hc => clipLt_asymm _ _ hc h1)
    simp [h2]

lemma clipLE_trans (a b c : ClipInfo) (h1 : clipLE a b = true)
    (h2 : clipLE b c = true) : clipLE a c = true := by
  rw [clipLE_true_iff] at h1 h2 ⊢
  intro hca
  by_cases hb : clipLt b c
  · exact h1 (clipLt_trans b c a hb hca)
  · have hbc : b = c := clipLt_connex b c hb h2
    exact h1 (by rw [hbc]; exact hca)

lemma clipLE_start (a b : ClipInfo) (h : clipLE a b = true) :
    a.start ≤ b.start := by
  rw [clipLE_true_iff] at h
  by_contra hlt
  exact h (Or.inl (not_le.mp hlt))

/- invariants of the scheduling loop -/

/- the starts list mirrors the start fields of the accepted subclips -/
def StartsAcc (st : SchedState) : Prop :=
  st.starts = st.acc.map ClipInfo.start

/- accepted starts are pairwise farther apart than twice the period -/
def Spaced (p : ℚ) (st : SchedState) : Prop :=
  st.starts.Pairwise (fun x y => p * 2 < |x - y|)

/- the bag holds footage entries, and every accepted subclip lies inside the
   entry it was cut from -/
def Inside (footage : List VidData) (st : SchedState) : Prop :=
  (∀ v ∈ st.bag, v ∈ footage) ∧
    ∀ c ∈ st.acc, ∃ e ∈ footage,
      e.filename = c.filename ∧ 0 ≤ c.skip ∧ c.skip + c.duration ≤ e.duration

lemma step_startsAcc {footage : List VidData} {fl p : ℚ} {u : ℕ → ℚ} :
    ∀ s s' b, step footage fl p u s = some (s', b) → StartsAcc s → StartsAcc s' := by
  intro s s' b h hP
  obtain ⟨bag, pos, start, vid, ha, hc⟩ := step_cases h
  rcases hc with ⟨_, hacc, rfl⟩ | ⟨_, _, rfl⟩
  · unfold StartsAcc at hP ⊢
    simp [hP]
  · exact hP

lemma step_spaced {footage : List VidData} {fl p : ℚ} {u : ℕ → ℚ} :
    ∀ s s' b, step footage fl p u s = some (s', b) → Spaced p s → Spaced p s' := by
  intro s s' b h hP
  obtain ⟨bag, pos, start, vid, ha, hc⟩ := step_cases h
  rcases hc with ⟨_, hacc, rfl⟩ | ⟨_, _, rfl⟩
  · unfold Spaced at hP ⊢
    simp only []
    rw [List.pairwise_append]
    refine ⟨hP, List.pairwise_singleton _ _, ?_⟩
    intro x hx y hy
    rw [List.mem_singleton] at hy
    subst hy
    exact (accepts_true hacc).2 x hx
  · exact hP

lemma step_inside {footage : List VidData} {fl p : ℚ} {u : ℕ → ℚ}
    (hu : ∀ i, 0 ≤ u i ∧ u i < 1) :
    ∀ s s' b, step footage fl p u s = some (s', b) → Inside footage s →
      Inside footage s' := by
  intro s s' b h hP
  obtain ⟨bag, pos, start, vid, ha, hc⟩ := step_cases h
  obtain ⟨hPbag, hPacc⟩ := hP
  have hbag' : ∀ v ∈ bag, v ∈ footage := by
    rcases attempt_cases ha with ⟨_, rfl, _⟩ | ⟨_, _, _, rfl, _⟩
    · exact hPbag
    · intro v hv
      exact hPbag v (List.erase_subset _ _ hv)
  rcases hc with ⟨_, hacc, rfl⟩ | ⟨_, _, rfl⟩
  · refine ⟨hbag', ?_⟩
    intro c hc
    rw [List.mem_append] at hc
    rcases hc with hc | hc
    · exact hPacc c hc
    · rw [List.mem_singleton] at hc
      subst hc
      have hdur := (accepts_true hacc).1
      rcases attempt_cases ha with ⟨_, _, _, hstart, hmax⟩ | ⟨hne, _, hvid, _, hstart⟩
      · -- time_random: vid is a maximal filtered entry, so vid.start <= start
        have hmem := pyMax_mem _ _ hmax
        rw [List.mem_filter] at hmem
        refine ⟨vid, hmem.1, rfl, ?_, hdur⟩
        have hle : vid.start ≤ start := of_decide_eq_true hmem.2
        simpa using hle
      · -- round_robin: vid comes from the bag; the accepted skip is nonnegative
        have hlen : 0 < s.bag.length := by
          cases hbe : s.bag with
          | nil => rw [hbe] at hne; simp at hne
          | cons x xs => simp [hbe]
        have hidx : pyChoiceIdx (u s.pos) s.bag.length < s.bag.length :=
          pyChoiceIdx_lt _ _ (hu s.pos).1 (hu s.pos).2 hlen
        have hvmem : vid ∈ s.bag := by
          rw [hvid, List.getD_eq_getElem _ _ hidx]
          exact List.getElem_mem _
        refine ⟨vid, hPbag vid hvmem, rfl, ?_, hdur⟩
        have hskip : start - vid.start = (vid.duration - p) * u (s.pos + 1) := by
          rw [hstart]; unfold pyUniform; ring
        rw [hskip]
        rw [hskip] at hdur
        by_cases hdp : 0 ≤ vid.duration - p
        · exact mul_nonneg hdp (hu (s.pos + 1)).1
        · exfalso
          push_neg at hdp
          have hmul : (vid.duration - p) * 1 < (vid.duration - p) * u (s.pos + 1) :=
            mul_lt_mul_of_neg_left (hu (s.pos + 1)).2 hdp
          rw [mul_one] at hmul
          linarith
  · exact ⟨hbag', hPacc⟩

/- arithmetic facts about the clip count -/

lemma numClips_bounds (total p : ℚ) (hp : 0 < p) (ht : 0 ≤ total) :
    ((numClips total p : ℕ) : ℚ) * p ≤ total ∧
      total - ((numClips total p : ℕ) : ℚ) * p < p := by
  have hq : 0 ≤ total / p := div_nonneg ht hp.le
  have hfl : (0 : ℤ) ≤ ⌊total / p⌋ := Int.floor_nonneg.mpr hq
  have hcast : ((numClips total p : ℕ) : ℚ) = ((⌊total / p⌋ : ℤ) : ℚ) := by
    unfold numClips pyTrunc
    rw [if_neg (not_lt.mpr hq)]
    exact_mod_cast Int.toNat_of_nonneg hfl
  constructor
  · rw [hcast, ← le_div_iff₀ hp]
    exact Int.floor_le _
  · rw [hcast]
    have hlt : total / p < (⌊total / p⌋ : ℚ) + 1 := Int.lt_floor_add_one _
    rw [div_lt_iff₀ hp] at hlt
    linarith

end Clipper

namespace Clipper

/- a concrete bounded draw stream used to exercise the scheduler -/
def uA : ℕ → ℚ := fun n => if n = 2 then 5 / 8 else 0

lemma uA_bounds : ∀ i, 0 ≤ uA i ∧ uA i < 1 := by
  intro i
  unfold uA
  by_cases h : i = 2 <;> simp [h] <;> norm_num

/- a concrete terminating run: one 10-second file, period 2, length 5;
   the loop count int(5 / 2) = 2 gives two accepted clips at starts 0 and 5 -/
lemma rawClips_concrete :
    rawClips [⟨0, "a", 10⟩] 10 2 5 uA 2 =
      some [⟨0, 0, "a", 2⟩, ⟨5, 5, "a", 2⟩] := by
  have hf : ⌊(5 : ℚ) / 2⌋ = 2 := by
    rw [Int.floor_eq_iff] <;> norm_num
  have h1 : numClips 5 2 = 2 := by
    norm_num [numClips, pyTrunc, hf]
    rfl
  unfold rawClips
  rw [if_neg (by norm_num), h1]
  norm_num [schedule, findClip, step, attempt,
    roundRobin, timeRandom, accepts, pyUniform, pyChoiceIdx, pyMin, pyMax,
    vidLt, uA, List.erase, List.getD, List.filter]

lemma collage_concrete :
    collageClips [⟨0, "a", 10⟩] 10 2 5 true uA 2 =
      some [⟨0, 0, "a", 2⟩, ⟨5, 5, "a", 2⟩] := by
  unfold collageClips
  rw [rawClips_concrete]
  rfl

lemma collageClips_some {footage : List VidData} {fl p total : ℚ} {sh : Bool}
    {u : ℕ → ℚ} {fuel : ℕ} {cs : List ClipInfo}
    (h : collageClips footage fl p total sh u fuel = some cs) :
    ∃ cs0, rawClips footage fl p total u fuel = some cs0 ∧
      cs = if sh then cs0 else sortClips cs0 := by
  unfold collageClips at h
  cases hr : rawClips footage fl p total u fuel with
  | none => rw [hr] at h; cases h
  | some cs0 =>
    rw [hr] at h
    exact ⟨cs0, rfl, (Option.some.inj h).symm⟩

/- a negative period yields a negative loop count, an empty range, and a
   normal return with zero placements -/
lemma rawNegPeriod (u : ℕ → ℚ) (fuel : ℕ) :
    rawClips [⟨0, "a", 10⟩] 10 (-1) 15 u fuel = some [] := by
  have hn : numClips 15 (-1) = 0 := by
    have h1 : ((15 : ℚ) / (-1)) = ((-15 : ℤ) : ℚ) := by norm_num
    unfold numClips pyTrunc
    rw [h1, if_pos (by norm_num), Int.ceil_intCast]
    rfl
  unfold rawClips
  rw [if_neg (by norm_num : (-1 : ℚ) ≠ 0), hn]
  simp only [schedule]
  rfl

/- with a single 1-second file and period 2, no draw can ever satisfy
   skip + period <= duration, so every iteration of the rejection loop
   rejects (or the time sampler crashes on an empty max()) -/
lemma step_short {u : ℕ → ℚ} (hu : ∀ i, 0 ≤ u i ∧ u i < 1)
    (st st' : SchedState) (b : Bool)
    (hbag : ∀ v ∈ st.bag, v = (⟨0, "a", 1⟩ : VidData))
    (h : step [⟨0, "a", 1⟩] 1 2 u st = some (st', b)) :
    b = false ∧ ∀ v ∈ st'.bag, v = (⟨0, "a", 1⟩ : VidData) := by
  obtain ⟨bag, pos, start, vid, ha, hc⟩ := step_cases h
  have hrej : accepts st.starts 2 start (start - vid.start) vid = false := by
    by_contra hacc
    rw [Bool.not_eq_false] at hacc
    have hdur := (accepts_true hacc).1
    rcases attempt_cases ha with ⟨_, _, _, hstart, hmax⟩ | ⟨hne, _, hvid, _, hstart⟩
    · have hmem := pyMax_mem _ _ hmax
      rw [List.mem_filter] at hmem
      have he : vid = ⟨0, "a", 1⟩ := List.mem_singleton.mp hmem.1
      have hle : vid.start ≤ start := of_decide_eq_true hmem.2
      rw [he] at hdur hle
      have hd : (⟨0, "a", 1⟩ : VidData).duration = 1 := rfl
      have hs : (⟨0, "a", 1⟩ : VidData).start = 0 := rfl
      rw [hd] at hdur
      rw [hs] at hdur hle
      linarith
    · have hlen : 0 < st.bag.length := by
        cases hbe : st.bag with
        | nil => rw [hbe] at hne; simp at hne
        | cons x xs => simp [hbe]
      have hidx := pyChoiceIdx_lt (u st.pos) st.bag.length
        (hu st.pos).1 (hu st.pos).2 hlen
      have hvmem : vid ∈ st.bag := by
        rw [hvid, List.getD_eq_getElem _ _ hidx]
        exact List.getElem_mem _
      have he : vid = ⟨0, "a", 1⟩ := hbag vid hvmem
      have hskip : start - vid.start = (vid.duration - 2) * u (st.pos + 1) := by
        rw [hstart]; unfold pyUniform; ring
      rw [hskip, he] at hdur
      have hd : (⟨0, "a", 1⟩ : VidData).duration = 1 := rfl
      rw [hd] at hdur
      have h1 := (hu (st.pos + 1)).1
      have h2 := (hu (st.pos + 1)).2
      nlinarith
  rcases hc with ⟨hb, hacc, _⟩ | ⟨hb, _, hst⟩
  · rw [hacc] at hrej; cases hrej
  · subst hb
    refine ⟨rfl, ?_⟩
    rcases attempt_cases ha with ⟨_, hbg, _⟩ | ⟨_, _, _, hbg, _⟩
    · rw [hst]
      intro v hv
      rw [hbg] at hv
      exact hbag v hv
    · rw [hst]
      intro v hv
      rw [hbg] at hv
      exact hbag v (List.erase_subset _ _ hv)

lemma findClip_short {u : ℕ → ℚ} (hu : ∀ i, 0 ≤ u i ∧ u i < 1) :
    ∀ fuel (st : SchedState), (∀ v ∈ st.bag, v = (⟨0, "a", 1⟩ : VidData)) →
      findClip [⟨0, "a", 1⟩] 1 2 u fuel st = none := by
  intro fuel
  induction fuel with
  | zero => intro st _; rfl
  | succ n ih =>
    intro st hbag
    rw [findClip]
    cases hs : step [⟨0, "a", 1⟩] 1 2 u st with
    | none => rfl
    | some r =>
      obtain ⟨st1, b⟩ := r
      obtain ⟨hb, hbag1⟩ := step_short hu st st1 b hbag hs
      subst hb
      exact ih st1 hbag1

lemma rawShortNone (u : ℕ → ℚ) (hu : ∀ i, 0 ≤ u i ∧ u i < 1) (fuel : ℕ) :
    rawClips [⟨0, "a", 1⟩] 1 2 2 u fuel = none := by
  have hn : numClips 2 2 = 1 := by
    have h1 : ((2 : ℚ) / 2) = 1 := by norm_num
    unfold numClips pyTrunc
    rw [h1, if_neg (by norm_num), Int.floor_one]
    rfl
  unfold rawClips
  rw [if_neg (by norm_num : (2 : ℚ) ≠ 0), hn]
  simp only [schedule]
  rw [findClip_short hu fuel _ ?_]
  · rfl
  · intro v hv
    simpa using hv

end Clipper

namespace Clipper

/- facts about the footage index -/

lemma loadAux_fail : ∀ (files : List (String × Option ℚ)) (offset : ℚ),
    (∃ fd ∈ files, fd.2 = none) → loadAux files offset = none := by
  intro files
  induction files with
  | nil =>
    intro o h
    obtain ⟨fd, hm, _⟩ := h
    cases hm
  | cons fd rest ih =>
    intro o h
    obtain ⟨g, hg, hgn⟩ := h
    obtain ⟨fn, d⟩ := fd
    cases d with
    | none => rfl
    | some dv =>
      have hrest : ∃ g ∈ rest, g.2 = none := by
        rcases List.mem_cons.mp hg with rfl | hmem
        · simp at hgn
        · exact ⟨g, hmem, hgn⟩
      simp only [loadAux]
      rw [ih (o + dv) hrest]

lemma loadAux_ok : ∀ (files : List (String × Option ℚ)) (offset : ℚ),
    (∀ fd ∈ files, fd.2 ≠ none) →
    ∃ fs total, loadAux files offset = some (fs, total) ∧
      fs.map VidData.filename = files.map Prod.fst ∧
      fs.map VidData.duration = files.map (fun fd => fd.2.getD 0) := by
  intro files
  induction files with
  | nil => intro o _; exact ⟨[], o, rfl, rfl, rfl⟩
  | cons fd rest ih =>
    intro o h
    obtain ⟨fn, d⟩ := fd
    cases d with
    | none =>
      have hh := h (fn, none) (List.mem_cons_self _ _)
      simp at hh
    | some dv =>
      obtain ⟨fs, total, heq, hmap1, hmap2⟩ :=
        ih (o + dv) (fun g hg => h g (List.mem_cons_of_mem _ hg))
      refine ⟨⟨o, fn, dv⟩ :: fs, total, ?_, ?_, ?_⟩
      · simp only [loadAux]
        rw [heq]
      · simp [hmap1]
      · simp [hmap2]

/- spacing and containment of the raw scheduler output -/

lemma rawClips_spacing {footage : List VidData} {fl p total : ℚ} {u : ℕ → ℚ}
    {fuel : ℕ} {cs : List ClipInfo}
    (h : rawClips footage fl p total u fuel = some cs) :
    cs.Pairwise (fun a b => p * 2 < |a.start - b.start|) := by
  obtain ⟨hp, st', hs, rfl⟩ := rawClips_some h
  have h1 : StartsAcc st' :=
    schedule_pres StartsAcc step_startsAcc _ _ _ hs rfl
  have h2 : Spaced p st' :=
    schedule_pres (Spaced p) step_spaced _ _ _ hs List.Pairwise.nil
  unfold StartsAcc at h1
  unfold Spaced at h2
  rw [h1, List.pairwise_map] at h2
  exact h2

lemma rawClips_inside {footage : List VidData} {fl p total : ℚ} {u : ℕ → ℚ}
    {fuel : ℕ} {cs : List ClipInfo} (hu : ∀ i, 0 ≤ u i ∧ u i < 1)
    (h : rawClips footage fl p total u fuel = some cs) :
    ∀ c ∈ cs, ∃ e ∈ footage,
      e.filename = c.filename ∧ 0 ≤ c.skip ∧ c.skip + c.duration ≤ e.duration := by
  obtain ⟨hp, st', hs, rfl⟩ := rawClips_some h
  have hI : Inside footage st' :=
    schedule_pres (Inside footage) (step_inside hu) _ _ _ hs
      ⟨fun v hv => hv, by simp⟩
  exact hI.2

/- transfer from the raw list to the possibly sorted final list -/

lemma collage_pairwise {R : ClipInfo → ClipInfo → Prop}
    (hsymm : ∀ x y, R x y → R y x)
    {footage : List VidData} {fl p total : ℚ} {sh : Bool} {u : ℕ → ℚ}
    {fuel : ℕ} {cs : List ClipInfo}
    (h : collageClips footage fl p total sh u fuel = some cs)
    (hP : ∀ cs0, rawClips footage fl p total u fuel = some cs0 →
      cs0.Pairwise R) :
    cs.Pairwise R := by
  obtain ⟨cs0, hr, hcs⟩ := collageClips_some h
  have hw := hP cs0 hr
  cases sh
  · simp only [Bool.false_eq_true, if_false] at hcs
    subst hcs
    exact (List.Perm.pairwise_iff (fun {x y} hxy => hsymm x y hxy)
      (List.mergeSort_perm cs0 clipLE)).mpr hw
  · simp only [if_true] at hcs
    subst hcs
    exact hw

lemma collage_mem {footage : List VidData} {fl p total : ℚ} {sh : Bool}
    {u : ℕ → ℚ} {fuel : ℕ} {cs : List ClipInfo} {c : ClipInfo}
    (h : collageClips footage fl p total sh u fuel = some cs) (hc : c ∈ cs) :
    ∃ cs0, rawClips footage fl p total u fuel = some cs0 ∧ c ∈ cs0 := by
  obtain ⟨cs0, hr, hcs⟩ := collageClips_some h
  refine ⟨cs0, hr, ?_⟩
  cases sh
  · simp only [Bool.false_eq_true, if_false] at hcs
    subst hcs
    exact List.mem_mergeSort.mp hc
  · simp only [if_true] at hcs
    subst hcs
    exact hc

/-- C1 counterexample: with one 10-second file, period 2 and total length 5,
the scheduler terminates with int(5 / 2) = 2 placements, while
ceil(5 / 2) = 3; the claimed ceil count is wrong, and the produced total
duration 2 * 2 = 4 falls short of 5 rather than exceeding it. -/
theorem count_ceil_cex :
    collageClips [⟨0, "a", 10⟩] 10 2 5 true uA 2 =
        some [⟨0, 0, "a", 2⟩, ⟨5, 5, "a", 2⟩] ∧
      ([(⟨0, 0, "a", 2⟩ : ClipInfo), ⟨5, 5, "a", 2⟩]).length = 2 ∧
      (⌈(5 : ℚ) / 2⌉).toNat = 3 ∧ (2 : ℕ) ≠ 3 := by
  refine ⟨collage_concrete, rfl, ?_, by decide⟩
  have hc : ⌈(5 : ℚ) / 2⌉ = 3 := by
    rw [Int.ceil_eq_iff] <;> norm_num
  rw [hc]
  rfl

/-- C1 (amended): the scheduler produces exactly int(total_length / period)
placements, truncation (floor for a nonnegative quotient) rather than ceil:
whenever a run terminates, the placement count is numClips total period, and
for period > 0 and total_length >= 0 the produced total duration
count * period never exceeds total_length and falls short of it by less than
one period. -/
theorem count_is_floor (footage : List VidData) (fl p total : ℚ) (sh : Bool)
    (u : ℕ → ℚ) (fuel : ℕ) (cs : List ClipInfo)
    (h : collageClips footage fl p total sh u fuel = some cs) :
    cs.length = numClips total p ∧
      (0 < p → 0 ≤ total →
        (cs.length : ℚ) * p ≤ total ∧ total - (cs.length : ℚ) * p < p) := by
  obtain ⟨cs0, hr, hcs⟩ := collageClips_some h
  have hlen : cs.length = cs0.length := by
    cases sh
    · simp only [Bool.false_eq_true, if_false] at hcs
      subst hcs
      exact List.length_mergeSort ..
    · simp only [if_true] at hcs
      subst hcs
      rfl
  obtain ⟨hp, st', hsch, hacc⟩ := rawClips_some hr
  have hl := schedule_len _ _ _ hsch
  have hcount : cs.length = numClips total p := by
    rw [hlen, ← hacc, hl]
    simp
  refine ⟨hcount, fun hppos htot => ?_⟩
  have hb := numClips_bounds total p hppos htot
  rw [hcount]
  exact hb

/-- C1 witness: the floor-count theorem applied to the concrete terminating
run with period 2 and total length 5. -/
theorem count_is_floor_witness :
    ∃ cs, collageClips [⟨0, "a", 10⟩] 10 2 5 true uA 2 = some cs ∧
      cs.length = numClips 5 2 ∧
      (cs.length : ℚ) * 2 ≤ 5 ∧ 5 - (cs.length : ℚ) * 2 < 2 := by
  have h := collage_concrete
  have ht := count_is_floor _ _ _ _ _ _ _ _ h
  have hb := ht.2 (by norm_num) (by norm_num)
  exact ⟨_, h, ht.1, hb.1, hb.2⟩

/-- C2: in every placement list the scheduler returns, any two distinct
placements have timeline starts at least period apart, and in fact at least
twice the period apart (the acceptance test requires strictly more than
period * 2). -/
theorem spacing_at_least_period (footage : List VidData) (fl p total : ℚ)
    (sh : Bool) (u : ℕ → ℚ) (fuel : ℕ) (cs : List ClipInfo)
    (h : collageClips footage fl p total sh u fuel = some cs) :
    cs.Pairwise (fun a b =>
      p ≤ |a.start - b.start| ∧ p * 2 ≤ |a.start - b.start|) := by
  refine collage_pairwise ?_ h ?_
  · intro x y hxy
    rw [abs_sub_comm]
    exact hxy
  · intro cs0 hr
    refine (rawClips_spacing hr).imp ?_
    intro a b hab
    have h0 : (0 : ℚ) ≤ |a.start - b.start| := abs_nonneg _
    rcases le_or_lt p 0 with hp0 | hp0
    · exact ⟨le_trans hp0 h0, by linarith⟩
    · exact ⟨by linarith, by linarith⟩

/-- C2 witness: the spacing theorem applied to the concrete terminating run,
whose two placements start at 0 and 5 with period 2. -/
theorem spacing_at_least_period_witness :
    ∃ cs, collageClips [⟨0, "a", 10⟩] 10 2 5 true uA 2 = some cs ∧
      cs.Pairwise (fun a b =>
        (2 : ℚ) ≤ |a.start - b.start| ∧ (2 : ℚ) * 2 ≤ |a.start - b.start|) := by
  have h := collage_concrete
  exact ⟨_, h, spacing_at_least_period _ _ _ _ _ _ _ _ h⟩

/-- C3: every placement the scheduler returns lies fully inside the footage
entry it was cut from: the source offset is nonnegative and offset plus
duration does not exceed that entry's duration. -/
theorem placement_inside_entry (footage : List VidData) (fl p total : ℚ)
    (sh : Bool) (u : ℕ → ℚ) (fuel : ℕ) (cs : List ClipInfo)
    (hu : ∀ i, 0 ≤ u i ∧ u i < 1)
    (h : collageClips footage fl p total sh u fuel = some cs) :
    ∀ c ∈ cs, ∃ e ∈ footage,
      e.filename = c.filename ∧ 0 ≤ c.skip ∧ c.skip + c.duration ≤ e.duration := by
  intro c hc
  obtain ⟨cs0, hr, hc0⟩ := collage_mem h hc
  exact rawClips_inside hu hr c hc0

/-- C3 witness: the containment theorem applied to the concrete terminating
run. -/
theorem placement_inside_entry_witness :
    ∃ cs, collageClips [⟨0, "a", 10⟩] 10 2 5 true uA 2 = some cs ∧
      ∀ c ∈ cs, ∃ e ∈ [(⟨0, "a", 10⟩ : VidData)],
        e.filename = c.filename ∧ 0 ≤ c.skip ∧
          c.skip + c.duration ≤ e.duration := by
  have h := collage_concrete
  exact ⟨_, h, placement_inside_entry _ _ _ _ _ _ _ _ uA_bounds h⟩

/-- C4: the scheduler is deterministic: the draw stream is a function of the
seed alone, and two runs on equal footage lists with equal policy parameters
(period, total length, shuffle flag, seed) return equal placement
sequences. -/
theorem scheduler_deterministic (g : String → ℕ → ℚ)
    (f1 f2 : List VidData) (fl1 fl2 p1 p2 t1 t2 : ℚ) (sh1 sh2 : Bool)
    (seed1 seed2 : String) (fuel : ℕ)
    (hf : f1 = f2) (hfl : fl1 = fl2) (hp : p1 = p2) (ht : t1 = t2)
    (hsh : sh1 = sh2) (hs : seed1 = seed2) :
    collageFromSeed g f1 fl1 p1 t1 sh1 seed1 fuel =
      collageFromSeed g f2 fl2 p2 t2 sh2 seed2 fuel := by
  subst hf hfl hp ht hsh hs
  rfl

/-- C4 witness: determinism applied at a concrete footage list, policy and
seed. -/
theorem scheduler_deterministic_witness :
    collageFromSeed (fun _ _ => 0) [⟨0, "a", 10⟩] 10 2 5 false "amaze me" 2 =
      collageFromSeed (fun _ _ => 0) [⟨0, "a", 10⟩] 10 2 5 false "amaze me" 2 :=
  scheduler_deterministic (fun _ _ => 0) _ _ _ _ _ _ _ _ _ _ _ _ _
    rfl rfl rfl rfl rfl rfl

/-- C5 counterexample: with period -1 (a non-positive period) the scheduler
does not fail at all: int(15 / -1) is negative, the loop runs zero times,
and the run completes normally with an empty placement list, so no
SchedulingInfeasible error exists in the code. -/
theorem infeasible_cex :
    rawClips [⟨0, "a", 10⟩] 10 (-1) 15 (fun _ => 0) 1 = some [] ∧
      (some ([] : List ClipInfo) ≠ none) := by
  refine ⟨rawNegPeriod _ 1, by simp⟩

/-- C5 (amended): the code has no SchedulingInfeasible check of any kind.
A negative period makes the loop count negative and the scheduler returns an
empty placement list normally; period = 0 raises ZeroDivisionError; and when
the period exceeds the only entry's duration (footage [1s], period 2) the
rejection loop never accepts any draw, so the scheduler never returns for
any retry bound: it hangs instead of failing. -/
theorem no_infeasible_check :
    (∀ (u : ℕ → ℚ) (fuel : ℕ),
        rawClips [⟨0, "a", 10⟩] 10 (-1) 15 u fuel = some []) ∧
      (∀ (u : ℕ → ℚ), (∀ i, 0 ≤ u i ∧ u i < 1) →
        ∀ fuel, rawClips [⟨0, "a", 1⟩] 1 2 2 u fuel = none) ∧
      (∀ (footage : List VidData) (fl total : ℚ) (u : ℕ → ℚ) (fuel : ℕ),
        rawClips footage fl 0 total u fuel = none) := by
  refine ⟨rawNegPeriod, fun u hu fuel => rawShortNone u hu fuel, ?_⟩
  intro footage fl total u fuel
  unfold rawClips
  rw [if_pos rfl]

/-- C5 witness: the amended behavior instantiated at concrete streams and
fuel bounds. -/
theorem no_infeasible_check_witness :
    rawClips [⟨0, "a", 10⟩] 10 (-1) 15 (fun _ => 0) 2 = some [] ∧
      rawClips [⟨0, "a", 1⟩] 1 2 2 (fun _ => 0) 3 = none ∧
      rawClips [⟨0, "a", 1⟩] 1 0 2 (fun _ => 0) 3 = none :=
  ⟨no_infeasible_check.1 _ 2,
   no_infeasible_check.2.1 _ (fun i => by norm_num) 3,
   no_infeasible_check.2.2 _ _ _ _ 3⟩

/-- C6 counterexample: a file whose reported duration is 0 (non-positive) is
accepted by the footage index without any error: load returns a normal index
containing the zero-duration entry, contradicting the claimed MediaOpenError
on non-positive durations. -/
theorem load_zero_duration_cex :
    load [("a", some 0)] = some ([⟨0, "a", 0⟩], 0) ∧ ¬(0 : ℚ) > 0 := by
  constructor
  · simp only [load, loadAux]
    norm_num
  · norm_num

/-- C6 (amended): if any file is unreadable the footage index aborts with the
collaborator's exception and produces no partial index; otherwise it returns
one entry per file in the given order (durations are recorded as reported,
with no positivity check). -/
theorem load_order_and_failures (files : List (String × Option ℚ)) :
    ((∃ fd ∈ files, fd.2 = none) → load files = none) ∧
      ((∀ fd ∈ files, fd.2 ≠ none) →
        ∃ fs total, load files = some (fs, total) ∧
          fs.map VidData.filename = files.map Prod.fst ∧
          fs.map VidData.duration = files.map (fun fd => fd.2.getD 0)) := by
  exact ⟨loadAux_fail files 0, loadAux_ok files 0⟩

/-- C6 witness: an unreadable file aborts the index, and a readable list
yields one entry per file in order. -/
theorem load_order_and_failures_witness :
    load [("a", none)] = none ∧
      ∃ fs total, load [("b", some 4)] = some (fs, total) ∧
        fs.map VidData.filename = ["b"] ∧
        fs.map VidData.duration = [4] := by
  constructor
  · exact (load_order_and_failures _).1 ⟨("a", none), by simp, rfl⟩
  · have h := (load_order_and_failures [("b", some 4)]).2 (by simp)
    simpa using h

/-- C9: when shuffle is false the returned placement list is the draw-order
list sorted ascending by timeline start; when shuffle is true it is exactly
the draw-order list. -/
theorem shuffle_sort (footage : List VidData) (fl p total : ℚ) (u : ℕ → ℚ)
    (fuel : ℕ) (cs0 : List ClipInfo)
    (h : rawClips footage fl p total u fuel = some cs0) :
    collageClips footage fl p total true u fuel = some cs0 ∧
      ∃ cs', collageClips footage fl p total false u fuel = some cs' ∧
        cs'.Perm cs0 ∧ cs'.Sorted (fun a b => a.start ≤ b.start) := by
  constructor
  · unfold collageClips
    rw [h]
    rfl
  · refine ⟨sortClips cs0, ?_, List.mergeSort_perm cs0 clipLE, ?_⟩
    · unfold collageClips
      rw [h]
      rfl
    · have hs := List.sorted_mergeSort
        (fun a b c => clipLE_trans a b c) clipLE_total cs0
      exact hs.imp (fun {a b} hab => clipLE_start a b hab)

/-- C9 witness: the ordering theorem applied to the concrete terminating
run. -/
theorem shuffle_sort_witness :
    collageClips [⟨0, "a", 10⟩] 10 2 5 true uA 2 =
        some [⟨0, 0, "a", 2⟩, ⟨5, 5, "a", 2⟩] ∧
      ∃ cs', collageClips [⟨0, "a", 10⟩] 10 2 5 false uA 2 = some cs' ∧
        cs'.Sorted (fun a b => a.start ≤ b.start) := by
  have h := shuffle_sort _ _ _ _ _ _ _ rawClips_concrete
  obtain ⟨cs', h2, _, h4⟩ := h.2
  exact ⟨h.1, cs', h2, h4⟩

/-- C10: the scheduler unconditionally enforces the stricter spacing: in every
returned placement list, any two distinct placements have timeline starts
strictly more than twice the period apart, for every policy (there is no
knob selecting a weaker one-period spacing). -/
theorem spacing_strict_two_period (footage : List VidData) (fl p total : ℚ)
    (sh : Bool) (u : ℕ → ℚ) (fuel : ℕ) (cs : List ClipInfo)
    (h : collageClips footage fl p total sh u fuel = some cs) :
    cs.Pairwise (fun a b => p * 2 < |a.start - b.start|) := by
  refine collage_pairwise ?_ h ?_
  · intro x y hxy
    rw [abs_sub_comm]
    exact hxy
  · intro cs0 hr
    exact rawClips_spacing hr

/-- C10 witness: the strict spacing theorem applied to the concrete
terminating run. -/
theorem spacing_strict_two_period_witness :
    ∃ cs, collageClips [⟨0, "a", 10⟩] 10 2 5 true uA 2 = some cs ∧
      cs.Pairwise (fun a b => (2 : ℚ) * 2 < |a.start - b.start|) := by
  have h := collage_concrete
  exact ⟨_, h, spacing_strict_two_period _ _ _ _ _ _ _ _ h⟩

end Clipper

namespace MLTMaker

/- a concrete successful probe reporting properties different from every
   hard-coded default -/
def pOk : ProbeData :=
  ⟨some 7, some 1280, some 720, some 25, some 1, some "hevc", some "yuv422p",
   some 44100, some 1, some "mp3"⟩

lemma findSome_none (probes : List (Option ProbeData))
    (hall : ∀ q ∈ probes, q = none) :
    probes.findSome? get_video_metadata = none := by
  induction probes with
  | nil => rfl
  | cons q rest ih =>
    have hq : q = none := hall q (List.mem_cons_self _ _)
    subst hq
    simp only [List.findSome?]
    exact ih (fun r hr => hall r (List.mem_cons_of_mem _ hr))

lemma findSome_map (probes : List (Option ProbeData)) :
    probes.findSome? get_video_metadata =
      (probes.findSome? id).map mergeProbe := by
  induction probes with
  | nil => rfl
  | cons q rest ih =>
    cases q with
    | none =>
      simp only [List.findSome?, get_video_metadata, Option.map_none', id]
      exact ih
    | some pd =>
      simp [List.findSome?, get_video_metadata]

lemma getD_none (probes : List (Option ProbeData))
    (hall : ∀ q ∈ probes, q = none) (j : ℕ) :
    probes.getD j none = none := by
  unfold List.getD
  cases hg : probes.get? j with
  | none => rfl
  | some q =>
    have hmem : q ∈ probes := List.get?_mem hg
    have := hall q hmem
    subst this
    rfl

lemma readDurations_isSome : ∀ (ms : List MetadataDict),
    (∀ m ∈ ms, (m.duration).isSome = true) →
    (readDurations ms).isSome = true := by
  intro ms
  induction ms with
  | nil => intro _; rfl
  | cons m rest ih =>
    intro h
    have hm := h m (List.mem_cons_self _ _)
    have hrest := ih (fun x hx => h x (List.mem_cons_of_mem _ hx))
    cases hd : m.duration with
    | none => rw [hd] at hm; simp at hm
    | some d =>
      cases hr : readDurations rest with
      | none => rw [hr] at hrest; simp at hrest
      | some ds => simp [readDurations, hd, hr]

lemma readDurations_none : ∀ (ms : List MetadataDict) (m : MetadataDict),
    m ∈ ms → m.duration = none → readDurations ms = none := by
  intro ms
  induction ms with
  | nil => intro m hm; cases hm
  | cons x rest ih =>
    intro m hm hdm
    rcases List.mem_cons.mp hm with rfl | hmem
    · simp [readDurations, hdm]
    · have hrest := ih m hmem hdm
      cases hd : x.duration with
      | none => simp [readDurations, hd]
      | some d => simp [readDurations, hd, hrest]

lemma resolved_duration_some (probes : List (Option ProbeData))
    (pd : ProbeData) (hf : probes.findSome? id = some pd) (i : ℕ) :
    ((resolvedMetadata probes i).duration).isSome = true := by
  unfold resolvedMetadata
  cases hg : get_video_metadata (probes.getD i none) with
  | some m => rfl
  | none =>
    unfold profileMetadata
    rw [findSome_map, hf]
    simp only [Option.map_some']
    rfl

/-- C7 counterexample: with two files where the first probe fails and the
second succeeds reporting 1280x720 hevc, the metadata substituted for the
failed file is the successfully probed profile metadata (width 1280, codec
hevc), not the claimed fixed defaults 1920x1080 h264. -/
theorem probe_default_cex :
    (resolvedMetadata [none, some pOk] 0).width = 1280 ∧
      (resolvedMetadata [none, some pOk] 0).codecName = some "hevc" ∧
      (1280 : ℤ) ≠ 1920 ∧
      (some "hevc" : Option String) ≠ some "h264" := by
  refine ⟨by decide, by decide, by decide, by decide⟩

/-- C7 (amended): when probing a file fails, generate_mlt_file substitutes
profile_metadata: the metadata of the first file whose probe succeeded, at
whatever position that file sits; a warning is printed and the run continues
to produce the project file (every per-file duration read then finds a
value).  When no probe succeeds at all, the substitute is instead a minimal
default HD profile dict carrying only the frame size and frame rate with no
duration key, and for a nonempty file list the generation then crashes with
KeyError on the first duration read instead of continuing.  The fixed
h264/yuv420p/48 kHz defaults are the fill-ins get_video_metadata applies to
fields missing from a successful probe, not the failed-probe substitute. -/
theorem probe_fallback_profile (probes : List (Option ProbeData)) :
    (∀ pd, probes.findSome? id = some pd →
      (∀ i, probes.getD i none = none →
        resolvedMetadata probes i = (mergeProbe pd).toDict) ∧
      (chainDurations probes).isSome = true) ∧
      ((∀ q ∈ probes, q = none) →
        (∀ j, resolvedMetadata probes j = defaultHDProfile ∧
          (resolvedMetadata probes j).duration = none) ∧
        (probes ≠ [] → chainDurations probes = none)) := by
  constructor
  · intro pd hf
    constructor
    · intro i hi
      unfold resolvedMetadata
      rw [hi]
      simp only [get_video_metadata, Option.map_none']
      unfold profileMetadata
      rw [findSome_map, hf]
      simp only [Option.map_some']
    · unfold chainDurations
      apply readDurations_isSome
      intro m hm
      rw [List.mem_map] at hm
      obtain ⟨i, _, rfl⟩ := hm
      exact resolved_duration_some probes pd hf i
  · intro hall
    have hres : ∀ j, resolvedMetadata probes j = defaultHDProfile := by
      intro j
      have hj := getD_none probes hall j
      unfold resolvedMetadata
      rw [hj]
      simp only [get_video_metadata, Option.map_none']
      unfold profileMetadata
      rw [findSome_none probes hall]
    refine ⟨fun j => ⟨hres j, by rw [hres j]; rfl⟩, ?_⟩
    intro hne
    unfold chainDurations
    apply readDurations_none _ (resolvedMetadata probes 0)
    · apply List.mem_map_of_mem
      apply List.mem_range.mpr
      cases hp : probes with
      | nil => exact absurd hp hne
      | cons q rest => simp [hp]
    · rw [hres 0]
      rfl

/-- C7 witness: the fallback theorem applied to a file list whose first file
fails to probe while the second succeeds (the failed file at index 0 gets the
second file's metadata and generation proceeds), and to an all-failed list
(the default HD dict is substituted and the duration reads crash). -/
theorem probe_fallback_profile_witness :
    resolvedMetadata [none, some pOk] 0 = (mergeProbe pOk).toDict ∧
      (chainDurations [none, some pOk]).isSome = true ∧
      resolvedMetadata [none] 0 = defaultHDProfile ∧
      chainDurations [none] = none := by
  have ha := (probe_fallback_profile [none, some pOk]).1 pOk rfl
  have hb := (probe_fallback_profile [none]).2 (by simp)
  exact ⟨ha.1 0 rfl, ha.2, (hb.1 0).1, hb.2 (by simp)⟩

/-- C8 counterexample: with the two files a/x.mp4 and b/x.mp4 sharing the
basename x.mp4, a placement cut from b/x.mp4 is handed to the backend under
its basename alone and resolves to chain1, the playlist producer of the
FIRST file a/x.mp4, not to chain3, the producer of its own source file: the
output reference is not unambiguous. -/
theorem basename_collision_cex :
    (mltClips [⟨3, 0, "b/x.mp4", 2⟩]).map
        (fun c => resolveChainId ["a/x.mp4", "b/x.mp4"] c.1) =
      [some (chainPlaylistId 0)] ∧
      chainPlaylistId 0 ≠ chainPlaylistId 1 := by
  refine ⟨by decide, by decide⟩

/-- C8 (amended): files receive index-based producer ids chain(2i) and
chain(2i+1), distinct even for identical basenames, but playlist entries are
matched to producers by basename alone through a first-match scan, so with
duplicate basenames every placement resolves to the first matching file's
producer, including placements cut from the second file. -/
theorem basename_first_match :
    (chainBinId 0 ≠ chainPlaylistId 0 ∧ chainBinId 0 ≠ chainBinId 1 ∧
      chainBinId 0 ≠ chainPlaylistId 1 ∧ chainPlaylistId 0 ≠ chainBinId 1 ∧
      chainPlaylistId 0 ≠ chainPlaylistId 1 ∧ chainBinId 1 ≠ chainPlaylistId 1) ∧
      resolveChainId ["a/x.mp4", "b/x.mp4"] (basename ("a/x.mp4")) =
        some (chainPlaylistId 0) ∧
      resolveChainId ["a/x.mp4", "b/x.mp4"] (basename ("b/x.mp4")) =
        some (chainPlaylistId 0) := by
  refine ⟨by decide, by decide, by decide⟩

end MLTMaker
